import Mathlib

/-!
Shallow embedding of the query-execution engine
(`query_executor.py`, `merge_sort.py`, `csv_parser.py`, `nosql_executor.py`,
`sql_component/parsers/csv_parser.py`, `sql_component/parsers/data_types.py`).

Modelling conventions:
* A Python dict (row) is an ordered association list; insertion order is
  preserved, as in CPython.
* Python `float()` applied to a decimal string literal is modelled as a
  parser into exact fractions (`pyFloatOfString`); `int()` as
  `pyIntOfString`.
  (Exotic inputs such as "inf", "nan" and underscore separators are outside
  the model.)
* Python raising an uncaught exception is modelled with `Except PyErr`.
* Python's `sorted`/`list.sort` (Timsort) is a stable sort; any stable sort
  computes the same function, so it is modelled by insertion sort
  (`pySortBy`).  The sort comparator on mixed float/str keys raises in
  Python on both execution paths alike; the model totalises it by placing
  all numbers before all strings.
-/

deriving instance DecidableEq for Except

namespace SqlEngine

/-- Errors that escape the engine: Python `TypeError` from comparing
incompatible values, `IndexError` from `[0]` on an empty list, and
`StopIteration` from `next` on an empty generator. -/
inductive PyErr where
  | typeError
  | indexError
  | stopIteration
deriving DecidableEq, Repr

/-! ### String helpers

Core `String.trim`/`String.toLower`/`String.splitOn` are defined by
well-founded recursion and do not reduce in the kernel, so the model uses
its own character-list implementations of Python's `strip`, `lower`,
`split` and string comparison. -/

/-- Python `str.strip()`: drop whitespace from both ends. -/
def trimChars (cs : List Char) : List Char :=
  ((cs.dropWhile Char.isWhitespace).reverse.dropWhile Char.isWhitespace).reverse

/-- `strip` on a string. -/
def pyStrip (s : String) : String := String.mk (trimChars s.data)

/-- Python `str.lower()` (ASCII letters, as the engine's inputs use). -/
def lowerChars (cs : List Char) : List Char := cs.map Char.toLower

/-- `lower` on a string. -/
def pyLower (s : String) : String := String.mk (lowerChars s.data)

/-- Lexicographic `<=` on character lists by code point, Python's string
order. -/
def charListLe : List Char → List Char → Bool
  | [], _ => true
  | _ :: _, [] => false
  | a :: as, b :: bs =>
    if a < b then true else if b < a then false else charListLe as bs

/-- Python `a <= b` on strings. -/
def pyStrLe (a b : String) : Bool := charListLe a.data b.data

/-- Python `a < b` on strings (strict part of the total order). -/
def pyStrLt (a b : String) : Bool := !(charListLe b.data a.data)

/-- Split a character list at every occurrence of a separator character
(`str.split(sep)` semantics: empty pieces kept). -/
def splitOnChar (sep : Char) : List Char → List (List Char)
  | [] => [[]]
  | c :: rest =>
    let r := splitOnChar sep rest
    if c = sep then [] :: r
    else
      match r with
      | [] => [[c]]
      | piece :: more => (c :: piece) :: more

/-- `path.split('.')` on a string, as a list of strings. -/
def splitDots (s : String) : List String :=
  (splitOnChar '.' s.data).map String.mk

/-! ### Python numbers

Python floats appear only as results of `float()` on decimal literals and
of arithmetic on such values; the model represents them exactly as
unnormalised fractions with a positive denominator (kept gcd-free so every
operation reduces in the kernel).  Comparisons and equality are semantic
(cross-multiplied), as for Python floats. -/

structure PyFloat where
  num : Int
  den : Nat
  dpos : 0 < den

instance : DecidableEq PyFloat := fun a b =>
  decidable_of_iff (a.num = b.num ∧ a.den = b.den) (by
    cases a; cases b; simp)

/-- A natural number as a Python float. -/
def pyNat (n : Nat) : PyFloat := ⟨n, 1, Nat.one_pos⟩

/-- Negation. -/
def pyNeg (a : PyFloat) : PyFloat := ⟨-a.num, a.den, a.dpos⟩

/-- Addition. -/
def pyAdd (a b : PyFloat) : PyFloat :=
  ⟨a.num * b.den + b.num * a.den, a.den * b.den, Nat.mul_pos a.dpos b.dpos⟩

/-- Division by a power of ten. -/
def pyDivPow10 (a : PyFloat) (e : Nat) : PyFloat :=
  ⟨a.num, a.den * 10 ^ e, Nat.mul_pos a.dpos (Nat.pos_pow_of_pos e (by decide))⟩

/-- Multiplication by a power of ten. -/
def pyMulPow10 (a : PyFloat) (e : Nat) : PyFloat :=
  ⟨a.num * (10 ^ e : Nat), a.den, a.dpos⟩

/-- Division by a (positive) count, as `sum(values) / len(values)`. -/
def pyDivNat (a : PyFloat) (n : Nat) : PyFloat :=
  if h : n = 0 then a
  else ⟨a.num, a.den * n, Nat.mul_pos a.dpos (Nat.pos_of_ne_zero h)⟩

/-- Python `a <= b`. -/
def pyFloatLe (a b : PyFloat) : Bool := a.num * (b.den : Int) ≤ b.num * (a.den : Int)

/-- Python `a < b`. -/
def pyFloatLt (a b : PyFloat) : Bool := a.num * (b.den : Int) < b.num * (a.den : Int)

/-- Python `a == b`. -/
def pyFloatEq (a b : PyFloat) : Bool := a.num * (b.den : Int) = b.num * (a.den : Int)

/-! ### Python numeric string conversions -/

/-- Digits of a decimal string, folded to a `Nat`. -/
def digitsVal (cs : List Char) : Nat :=
  cs.foldl (fun a c => a * 10 + (c.toNat - '0'.toNat)) 0

/-- Model of Python `int(s)`: optional surrounding whitespace, optional
sign, then a nonempty run of decimal digits. -/
def pyIntOfString (s : String) : Option Int :=
  let cs := trimChars s.data
  let core : List Char → Option Int := fun ds =>
    if ds ≠ [] ∧ ds.all Char.isDigit then some (digitsVal ds) else none
  match cs with
  | '-' :: rest => (core rest).map (fun n => -n)
  | '+' :: rest => core rest
  | _ => core cs

/-- Exponent suffix of a float literal: empty, or `(e|E) [sign] digits+`. -/
def pyExpPart (mant : PyFloat) : List Char → Option PyFloat
  | [] => some mant
  | e :: r =>
    if e = 'e' ∨ e = 'E' then
      let p : Bool × List Char :=
        match r with
        | '-' :: ds => (true, ds)
        | '+' :: ds => (false, ds)
        | _ => (false, r)
      if p.2 ≠ [] ∧ p.2.all Char.isDigit then
        some (if p.1 then pyDivPow10 mant (digitsVal p.2)
          else pyMulPow10 mant (digitsVal p.2))
      else none
    else none

/-- Fractional/exponent tail of a float literal, given the integer-part
digits already read.  Accepts `[. digits*] [(e|E) [sign] digits+]` with at
least one digit overall in the mantissa. -/
def pyFloatTail (intDigits : List Char) (rest : List Char) : Option PyFloat :=
  match rest with
  | '.' :: r =>
    let frac := r.takeWhile Char.isDigit
    if intDigits = [] ∧ frac = [] then none
    else
      pyExpPart (pyDivPow10 (pyNat (digitsVal (intDigits ++ frac))) frac.length)
        (r.dropWhile Char.isDigit)
  | _ =>
    if intDigits = [] then none
    else pyExpPart (pyNat (digitsVal intDigits)) rest

/-- Model of Python `float(s)` on decimal literals: optional surrounding
whitespace, optional sign, digits with optional fraction and exponent. -/
def pyFloatOfString (s : String) : Option PyFloat :=
  let cs := trimChars s.data
  let core : List Char → Option PyFloat := fun l =>
    pyFloatTail (l.takeWhile Char.isDigit) (l.dropWhile Char.isDigit)
  match cs with
  | '-' :: rest => (core rest).map pyNeg
  | '+' :: rest => core rest
  | _ => core cs

/-! ### Rows (Python dicts with string keys) -/

/-- A scalar value held in a row dict: Python `None`, a string, or a float
(arising from aggregation). -/
inductive RVal where
  | vNone
  | vStr (s : String)
  | vNum (q : PyFloat)
deriving DecidableEq

/-- A row is an insertion-ordered dict from column names to values. -/
abbrev Row := List (String × RVal)

/-- The dict's key list in insertion order. -/
def Row.keys (r : Row) : List String := r.map Prod.fst

/-- `row.get(c)`: `None` when the key is absent. -/
def Row.get (r : Row) (c : String) : RVal :=
  match r.find? (fun p => p.1 = c) with
  | some p => p.2
  | none => RVal.vNone

/-- `row.get(c, d)` with an explicit default. -/
def Row.getD (r : Row) (c : String) (d : RVal) : RVal :=
  match r.find? (fun p => p.1 = c) with
  | some p => p.2
  | none => d

/-- `d[k] = v` on a dict: update in place if present, else append. -/
def dictSet (r : Row) (k : String) (v : RVal) : Row :=
  if (r.map Prod.fst).contains k then
    r.map (fun p => if p.1 = k then (k, v) else p)
  else r ++ [(k, v)]

/-- Python `{**a, **b}`: start from `a`, then write each entry of `b`. -/
def dictMerge (a b : Row) : Row :=
  b.foldl (fun acc p => dictSet acc p.1 p.2) a

/-- Python `str()` of a row value (group keys are built with it).
`str(None)` is `"None"`; float formatting is approximated by the rational's
representation (group keys in practice come from CSV strings). -/
def pyStrOfRVal : RVal → String
  | RVal.vNone => "None"
  | RVal.vStr s => s
  | RVal.vNum q => String.mk (Nat.toDigits 10 q.num.natAbs) ++ "/" ++
      String.mk (Nat.toDigits 10 q.den)

/-! ### The order-by sort key and the stable sort -/

/-- `get_sort_key` result: `float(val)` on success, else `str(val)`. -/
abbrev SKey := PyFloat ⊕ String

/-- Comparator on sort keys, modelling `<`/`<=` on homogeneous Python keys
(mixed comparisons raise in Python on every path that compares keys; the
model totalises the order by putting numbers before strings). -/
def skeyLe : SKey → SKey → Bool
  | Sum.inl a, Sum.inl b => pyFloatLe a b
  | Sum.inr a, Sum.inr b => pyStrLe a b
  | Sum.inl _, Sum.inr _ => true
  | Sum.inr _, Sum.inl _ => false

/-- `get_sort_key(row)` from `_apply_orderby` / `merge_sort.py`:
try `float(val)`, fall back to `str(val)`; `float(None)` raises, so a
missing value falls back to `str(None) = "None"`. -/
def sortKey (col : String) (r : Row) : SKey :=
  match r.get col with
  | RVal.vNum q => Sum.inl q
  | RVal.vStr s =>
    match pyFloatOfString s with
    | some q => Sum.inl q
    | none => Sum.inr s
  | RVal.vNone => Sum.inr "None"

/-- Stable insertion of `x` before the first element it is `le` to. -/
def insertLe (le : α → α → Bool) (x : α) : List α → List α
  | [] => [x]
  | y :: ys => if le x y then x :: y :: ys else y :: insertLe le x ys

/-- Insertion sort; the model of Python's stable `sorted`/`list.sort`. -/
def insertionSortLe (le : α → α → Bool) : List α → List α
  | [] => []
  | x :: xs => insertLe le x (insertionSortLe le xs)

/-- `sorted(data, key=get_sort_key, reverse=rev)`.  `reverse=True` sorts as
if each comparison were reversed, keeping ties in original order. -/
def pySortBy (col : String) (rev : Bool) (data : List Row) : List Row :=
  if rev then insertionSortLe (fun a b => skeyLe (sortKey col b) (sortKey col a)) data
  else insertionSortLe (fun a b => skeyLe (sortKey col a) (sortKey col b)) data

/-! ### Operation descriptors (`query_executor.py`) -/

/-- Comparison operators of WHERE / HAVING descriptors. -/
inductive CmpOp where
  | gt | lt | ge | le | eq | ne
deriving DecidableEq, Repr

/-- Aggregate functions of GROUP BY descriptors. -/
inductive AggFn where
  | count | sum | avg | min | max
deriving DecidableEq, Repr

/-- Join kinds handled by `_apply_join`. -/
inductive JoinType where
  | inner | left | right
deriving DecidableEq, Repr

/-- One operation descriptor of the tabular pipeline. -/
inductive Op where
  | select (cols : List String)
  | join (jt : JoinType) (mainKey joinKey : String)
  | filter (col : String) (cop : CmpOp) (value : String)
  | groupby (col : String) (agg : Option (AggFn × String))
  | having (fn : AggFn) (cop : CmpOp) (value : String)
  | orderby (col : String) (desc : Bool)
  | limit (n : Nat)
deriving DecidableEq, Repr

/-! ### The operator implementations of `QueryExecutor` -/

/-- `_apply_select`: `{col: row.get(col) for col in columns}`.
(The model assumes the requested column list is duplicate-free, as a dict
comprehension would collapse duplicates.) -/
def applySelect (data : List Row) (cols : List String) : List Row :=
  data.map (fun r => cols.map (fun c => (c, r.get c)))

/-- The `try: value = float(value) except: pass` coercion applied to a raw
row value before a filter comparison (`float(None)` raises, so `None` stays
`None`). -/
def coerceNum : RVal → RVal
  | RVal.vStr s =>
    match pyFloatOfString s with
    | some q => RVal.vNum q
    | none => RVal.vStr s
  | v => v

/-- A Python comparison between two (already coerced) values.  Ordering a
number against a string or anything against `None` raises `TypeError`;
`==`/`!=` never raise. -/
def pyCmp (a : RVal) (cop : CmpOp) (b : RVal) : Except PyErr Bool :=
  match cop with
  | CmpOp.eq =>
    Except.ok (match a, b with
      | RVal.vNum x, RVal.vNum y => pyFloatEq x y
      | RVal.vStr x, RVal.vStr y => x = y
      | RVal.vNone, RVal.vNone => true
      | _, _ => false)
  | CmpOp.ne =>
    Except.ok (match a, b with
      | RVal.vNum x, RVal.vNum y => !(pyFloatEq x y)
      | RVal.vStr x, RVal.vStr y => x ≠ y
      | RVal.vNone, RVal.vNone => false
      | _, _ => true)
  | _ =>
    match a, b with
    | RVal.vNum x, RVal.vNum y =>
      Except.ok (match cop with
        | CmpOp.gt => pyFloatLt y x | CmpOp.lt => pyFloatLt x y
        | CmpOp.ge => pyFloatLe y x | _ => pyFloatLe x y)
    | RVal.vStr x, RVal.vStr y =>
      Except.ok (match cop with
        | CmpOp.gt => pyStrLt y x | CmpOp.lt => pyStrLt x y
        | CmpOp.ge => pyStrLe y x | _ => pyStrLe x y)
    | _, _ => Except.error PyErr.typeError

/-- The row loop of `_apply_filter`: test each row in order against the
(already coerced) descriptor value; an uncaught `TypeError` from a
comparison aborts the whole loop. -/
def filterRows (col : String) (cop : CmpOp) (cval : RVal) :
    List Row → Except PyErr (List Row)
  | [] => Except.ok []
  | r :: rs => do
    let b ← pyCmp (coerceNum (r.get col)) cop cval
    let rest ← filterRows col cop cval rs
    pure (if b then r :: rest else rest)

/-- `_apply_filter`: coerce the descriptor value once, then run the row
loop. -/
def applyFilter (data : List Row) (col : String) (cop : CmpOp) (value : String) :
    Except PyErr (List Row) :=
  filterRows col cop (coerceNum (RVal.vStr value)) data

/-- Append a row to the bucket of key `k`, creating the bucket at the end on
first sight (Python dict insertion order). -/
def addToBuckets (gs : List (α × List Row)) (k : α) (r : Row) [DecidableEq α] :
    List (α × List Row) :=
  if (gs.map Prod.fst).contains k then
    gs.map (fun p => if p.1 = k then (p.1, p.2 ++ [r]) else p)
  else gs ++ [(k, [r])]

/-- The `groups` dict of `_apply_groupby`, keyed by `str(row.get(column))`. -/
def buildGroups (data : List Row) (col : String) : List (String × List Row) :=
  data.foldl (fun gs r => addToBuckets gs (pyStrOfRVal (r.get col)) r) []

/-- The numeric values list of an aggregated column:
`float(row.get(agg_column, 0))` with failures silently skipped — a missing
key contributes `float(0)`, a `None` value raises and is skipped. -/
def aggValues (rows : List Row) (aggCol : String) : List PyFloat :=
  rows.filterMap (fun r =>
    match r.getD aggCol (RVal.vNum (pyNat 0)) with
    | RVal.vNum q => some q
    | RVal.vStr s => pyFloatOfString s
    | RVal.vNone => none)

/-- The aggregate result row of one group in `_apply_groupby`: the group key
always, plus the aggregate field only when at least one value was usable. -/
def aggRow (col : String) (fn : AggFn) (aggCol : String) (k : String)
    (rows : List Row) : Row :=
  let base : Row := [(col, RVal.vStr k)]
  match fn with
  | AggFn.count => base ++ [("count", RVal.vNum (pyNat rows.length))]
  | _ =>
    let vs := aggValues rows aggCol
    match vs with
    | [] => base
    | v0 :: vtl =>
      match fn with
      | AggFn.sum => base ++ [("sum", RVal.vNum (vs.foldl pyAdd (pyNat 0)))]
      | AggFn.avg =>
        base ++ [("avg", RVal.vNum (pyDivNat (vs.foldl pyAdd (pyNat 0)) vs.length))]
      | AggFn.min =>
        base ++ [("min", RVal.vNum (vtl.foldl (fun m v => if pyFloatLt v m then v else m) v0))]
      | _ =>
        base ++ [("max", RVal.vNum (vtl.foldl (fun m v => if pyFloatLt m v then v else m) v0))]

/-- `_apply_groupby`. -/
def applyGroupby (data : List Row) (col : String) (agg : Option (AggFn × String)) :
    List Row :=
  let groups := buildGroups data col
  match agg with
  | some (fn, aggCol) => groups.map (fun p => aggRow col fn aggCol p.1 p.2)
  | none =>
    groups.map (fun p => [("group", RVal.vStr p.1), ("count", RVal.vNum (pyNat p.2.length))])

/-- The aggregate field name `_apply_having` reads for a given function. -/
def havingField : AggFn → String
  | AggFn.count => "count"
  | AggFn.sum => "sum"
  | AggFn.avg => "avg"
  | AggFn.min => "min"
  | AggFn.max => "max"

/-- `_apply_having`: rows lacking the aggregate field are dropped; every
per-row failure (coercion or comparison) is caught and the row skipped, so
HAVING never raises.  (`!=` is not among its operators.) -/
def applyHaving (data : List Row) (fn : AggFn) (cop : CmpOp) (value : String) :
    List Row :=
  if data = [] then data else
  let cval := coerceNum (RVal.vStr value)
  data.filter (fun r =>
    match r.getD (havingField fn) RVal.vNone with
    | RVal.vNone => false
    | v =>
      match coerceNum v with
      | RVal.vNum q =>
        match cop, cval with
        | CmpOp.gt, RVal.vNum w => pyFloatLt w q
        | CmpOp.lt, RVal.vNum w => pyFloatLt q w
        | CmpOp.ge, RVal.vNum w => pyFloatLe w q
        | CmpOp.le, RVal.vNum w => pyFloatLe q w
        | CmpOp.eq, RVal.vNum w => pyFloatEq q w
        | _, _ => false
      | _ => false)

/-- Python `==` between two dict values (dict key identification):
numbers semantically, strings and `None` structurally, mixed kinds never
equal (a float key and a str key never collide). -/
def rvalPyEq : RVal → RVal → Bool
  | RVal.vNum x, RVal.vNum y => pyFloatEq x y
  | RVal.vStr x, RVal.vStr y => x = y
  | RVal.vNone, RVal.vNone => true
  | _, _ => false

/-- Append a row to the bucket of dict key `k` (Python `==` on keys),
creating the bucket at the end on first sight. -/
def addToRValBuckets (gs : List (RVal × List Row)) (k : RVal) (r : Row) :
    List (RVal × List Row) :=
  if gs.any (fun p => rvalPyEq p.1 k) then
    gs.map (fun p => if rvalPyEq p.1 k then (p.1, p.2 ++ [r]) else p)
  else gs ++ [(k, [r])]

/-- The right-table index of `_apply_join`, keyed by `row.get(join_key)`
in first-insertion order. -/
def buildJoinIndex (joinData : List Row) (joinKey : String) :
    List (RVal × List Row) :=
  joinData.foldl (fun gs r => addToRValBuckets gs (r.get joinKey) r) []

/-- `_apply_join`.  `if not self.join_data` covers both an absent and an
empty join table. -/
def applyJoin (joinData : Option (List Row)) (data : List Row) (jt : JoinType)
    (mainKey joinKey : String) : List Row :=
  match joinData with
  | none => data
  | some [] => data
  | some jd =>
    let idx := buildJoinIndex jd joinKey
    match jt with
    | JoinType.inner =>
      data.flatMap (fun r =>
        match idx.find? (fun p => rvalPyEq p.1 (r.get mainKey)) with
        | some p => p.2.map (fun jr => dictMerge r jr)
        | none => [])
    | JoinType.left =>
      data.flatMap (fun r =>
        match idx.find? (fun p => rvalPyEq p.1 (r.get mainKey)) with
        | some p => p.2.map (fun jr => dictMerge r jr)
        | none => [r])
    | JoinType.right =>
      idx.flatMap (fun p =>
        let hits := data.filter (fun r => rvalPyEq (r.get mainKey) p.1)
        if hits = [] then p.2
        else hits.flatMap (fun r => p.2.map (fun jr => dictMerge r jr)))

/-- One step of `_execute_normal`'s dispatch. -/
def applyOp (joinData : Option (List Row)) (data : List Row) :
    Op → Except PyErr (List Row)
  | Op.select cols => Except.ok (applySelect data cols)
  | Op.join jt mk jk => Except.ok (applyJoin joinData data jt mk jk)
  | Op.filter col cop v => applyFilter data col cop v
  | Op.groupby col agg => Except.ok (applyGroupby data col agg)
  | Op.having fn cop v => Except.ok (applyHaving data fn cop v)
  | Op.orderby col desc => Except.ok (pySortBy col desc data)
  | Op.limit n => Except.ok (data.take n)

/-- `_execute_normal`: fold the declared operations in order over the data. -/
def executeNormal (joinData : Option (List Row)) (ops : List Op)
    (data : List Row) : Except PyErr (List Row) :=
  match ops with
  | [] => Except.ok data
  | op :: rest => do
    let r ← applyOp joinData data op
    executeNormal joinData rest r

/-! ### Chunked execution (`_execute_chunked`, `_execute_chunked_simple`,
and the external sort-merge of `merge_sort.py`).  The streaming source is
modelled as the list of row batches the chunk parser yields. -/

/-- Whether a descriptor is a filter or a select (the ops
`_process_simple_ops_on_chunk` handles). -/
def Op.isSimple : Op → Bool
  | Op.filter _ _ _ => true
  | Op.select _ => true
  | _ => false

/-- `_process_simple_ops_on_chunk`: apply the filter/select descriptors in
order to one chunk (other descriptor kinds leave the chunk unchanged). -/
def processSimpleOps (chunk : List Row) : List Op → Except PyErr (List Row)
  | [] => Except.ok chunk
  | Op.filter col cop v :: rest => do
    let r ← applyFilter chunk col cop v
    processSimpleOps r rest
  | Op.select cols :: rest => processSimpleOps (applySelect chunk cols) rest
  | _ :: rest => processSimpleOps chunk rest

/-- The accumulation loop of `_execute_chunked_simple`: stream the chunks,
apply the filter/select ops to each, extend the accumulator, stopping early
once a declared limit is reached. -/
def accumChunks (simpleOps : List Op) (limitVal : Option Nat) (acc : List Row) :
    List (List Row) → Except PyErr (List Row)
  | [] => Except.ok acc
  | chunk :: rest =>
    if chunk = [] then accumChunks simpleOps limitVal acc rest
    else do
      let cr ← processSimpleOps chunk simpleOps
      if cr = [] then accumChunks simpleOps limitVal acc rest
      else
        match limitVal with
        | some n =>
          if n ≤ acc.length then Except.ok acc
          else
            let acc2 := acc ++ cr.take (n - acc.length)
            if n ≤ acc2.length then Except.ok acc2
            else accumChunks simpleOps limitVal acc2 rest
        | none => accumChunks simpleOps limitVal (acc ++ cr) rest

/-- The first declared limit value, if any (`limit_val is None` guard). -/
def firstLimit : List Op → Option Nat
  | [] => none
  | Op.limit n :: _ => some n
  | _ :: rest => firstLimit rest

/-- `_execute_chunked_simple`: stream filter/select with early limit stop,
then apply every group-by descriptor (in order) to the accumulated rows. -/
def executeChunkedSimple (chunks : List (List Row)) (ops : List Op) :
    Except PyErr (List Row) :=
  let simpleOps := ops.filter Op.isSimple
  let groupOps := ops.filter (fun op => match op with
    | Op.groupby _ _ => true | _ => false)
  do
    let streamed ← accumChunks simpleOps (firstLimit ops) [] chunks
    pure (groupOps.foldl (fun res op =>
      match op with
      | Op.groupby col agg => applyGroupby res col agg
      | _ => res) streamed)

/-- Total number of rows across the spilled chunk files. -/
def sumLen (cs : List (List Row)) : Nat := (cs.map List.length).sum

/-- The heap's minimum: among the heads of the non-exhausted files, the one
with the least `(sort key, file index)` pair (ties on the key go to the
lower file index, exactly as the `(key, idx, row)` tuples order in the
`heapq`). -/
def minHead (col : String) : List (List Row) → Option (Nat × Row)
  | [] => none
  | [] :: cs => (minHead col cs).map (fun p => (p.1 + 1, p.2))
  | (r :: _) :: cs =>
    match minHead col cs with
    | none => some (0, r)
    | some (i, r2) =>
      if skeyLe (sortKey col r) (sortKey col r2) then some (0, r)
      else some (i + 1, r2)

/-- Drop the already-emitted head of file `i`. -/
def tailAt : List (List Row) → Nat → List (List Row)
  | [], _ => []
  | c :: cs, 0 => c.tail :: cs
  | c :: cs, n + 1 => c :: tailAt cs n

/-- The k-way merge loop: repeatedly pop the heap minimum and refill from
the same file.  The fuel argument equals the total number of rows, which is
exactly the number of iterations the loop performs. -/
def heapMergeAux (col : String) : Nat → List (List Row) → List Row
  | 0, _ => []
  | fuel + 1, cs =>
    match minHead col cs with
    | none => []
    | some (i, r) => r :: heapMergeAux col fuel (tailAt cs i)

/-- Phase 2 of the external sort-merge. -/
def heapMerge (col : String) (cs : List (List Row)) : List Row :=
  heapMergeAux col (sumLen cs) cs

/-- The first limit declared after the order-by (`post_limit`). -/
def postLimitOf (opsAfter : List Op) : Option Nat := firstLimit opsAfter

/-- `_execute_chunked_external_orderby` (`merge_sort.py`): find the first
order-by; DESC falls back to materialise-then-normal; ASC applies the
pre-order-by filter/selects per chunk, sorts each chunk, spills, k-way
merges, and truncates at the post-order-by limit.  `next` on a pipeline
without an order-by would raise `StopIteration`. -/
def isOrderbyOp : Op → Bool
  | Op.orderby _ _ => true
  | _ => false

def executeExternalOrderby (joinData : Option (List Row))
    (chunks : List (List Row)) (ops : List Op) : Except PyErr (List Row) :=
  match ops[ops.findIdx isOrderbyOp]? with
  | none => Except.error PyErr.stopIteration
  | some op =>
    match op with
    | Op.orderby col desc =>
      if desc then executeNormal joinData ops chunks.flatten
      else do
        let processed ← chunks.mapM (fun ch => processSimpleOps ch
          ((ops.take (ops.findIdx isOrderbyOp)).filter Op.isSimple))
        let merged := heapMerge col
          ((processed.filter (· ≠ [])).map (pySortBy col false))
        pure (match postLimitOf (ops.drop (ops.findIdx isOrderbyOp + 1)) with
          | some n => merged.take n
          | none => merged)
    | _ => Except.error PyErr.stopIteration

/-- `_execute_chunked`: the execution-strategy decision.  A join forces
full materialisation; an order-by without any group-by/having uses the
external sort-merge; otherwise the simple streaming path runs. -/
def executeChunked (joinData : Option (List Row)) (chunks : List (List Row))
    (ops : List Op) : Except PyErr (List Row) :=
  let hasJoin := ops.any (fun op => match op with
    | Op.join _ _ _ => true | _ => false)
  let hasOrderby := ops.any (fun op => match op with
    | Op.orderby _ _ => true | _ => false)
  let hasGroupOps := ops.any (fun op => match op with
    | Op.groupby _ _ => true | Op.having _ _ _ => true | _ => false)
  if hasJoin then executeNormal joinData ops chunks.flatten
  else if hasOrderby ∧ ¬ hasGroupOps then
    executeExternalOrderby joinData chunks ops
  else executeChunkedSimple chunks ops

/-! ### The document engine (`nosql_executor.py`) -/

/-- A document value: the recursive JSON-like tree.  Python `None` and a
stored JSON null are both `null`. -/
inductive DVal where
  | null
  | bool (b : Bool)
  | num (q : PyFloat)
  | str (s : String)
  | arr (elems : List DVal)
  | obj (fields : List (String × DVal))

/-- Python `str()` of a document value, used for join keys, filter equality
and group keys.  Container formatting is approximated; scalar cases follow
CPython (`str(None) = "None"`, `str(True) = "True"`). -/
def pyStrOfDVal : DVal → String
  | DVal.null => "None"
  | DVal.bool true => "True"
  | DVal.bool false => "False"
  | DVal.num q => String.mk (Nat.toDigits 10 q.num.natAbs) ++ "/" ++
      String.mk (Nat.toDigits 10 q.den)
  | DVal.str s => s
  | DVal.arr _ => "[...]"
  | DVal.obj _ => "\x7b...\x7d"

/-- `_get_nested_value` on an already-split dot path: index repeatedly into
objects; a non-object intermediate yields `None`, as does a missing key. -/
def getNestedKeys (v : DVal) : List String → DVal
  | [] => v
  | k :: ks =>
    match v with
    | DVal.obj fields =>
      getNestedKeys (match fields.find? (fun p => p.1 = k) with
        | some p => p.2
        | none => DVal.null) ks
    | _ => DVal.null

/-- `_get_nested_value(obj, path)` with the `path.split('.')` step. -/
def getNested (v : DVal) (path : String) : DVal :=
  getNestedKeys v (splitDots path)

/-- `obj[k] = v` on a document object. -/
def dobjSet (fields : List (String × DVal)) (k : String) (v : DVal) :
    List (String × DVal) :=
  if (fields.map Prod.fst).contains k then
    fields.map (fun p => if p.1 = k then (k, v) else p)
  else fields ++ [(k, v)]

/-- `_set_nested_value`: walk the path, creating (or descending into)
intermediate objects, then write the leaf.  (Descending into an existing
non-object intermediate would raise in Python; projection only builds fresh
documents, where it cannot happen — the model descends into a fresh
object.) -/
def setNestedKeys (fields : List (String × DVal)) (v : DVal) :
    List String → List (String × DVal)
  | [] => fields
  | [k] => dobjSet fields k v
  | k :: ks =>
    let inner : List (String × DVal) :=
      match fields.find? (fun p => p.1 = k) with
      | some (_, DVal.obj g) => g
      | _ => []
    dobjSet fields k (DVal.obj (setNestedKeys inner v ks))

/-- One filter condition of `NoSQLExecutor._apply_filter`.  Numeric `>`/`<`
comparisons are wrapped in try/except, so coercion failure simply means "no
match". -/
def docFilterMatch (doc : DVal) (field : String) (fop : String) (value : String) :
    Bool :=
  let dv := getNested doc field
  if fop = "==" then pyStrOfDVal dv = value
  else if fop = "!=" then pyStrOfDVal dv ≠ value
  else if fop = "contains" then
    decide (lowerChars value.data <:+: lowerChars (pyStrOfDVal dv).data)
  else if fop = ">" ∨ fop = "<" then
    let dq : Option PyFloat :=
      match dv with
      | DVal.num q => some q
      | DVal.str s => pyFloatOfString s
      | DVal.bool b => some (pyNat (if b then 1 else 0))
      | _ => none
    match dq, pyFloatOfString value with
    | some a, some b => if fop = ">" then pyFloatLt b a else pyFloatLt a b
    | _, _ => false
  else false

/-- One descriptor of the document pipeline. -/
inductive DocOp where
  | filter (field : String) (fop : String) (value : String)
  | join (mainField joinField : String)
  | project (fields : List String)
  | groupby (field : String)
  | limit (n : Nat)

/-- `NoSQLExecutor._apply_join`: with no loaded (or an empty) secondary
collection the input passes through untouched; otherwise every document
gains a `joined_data` array of the matching secondary documents. -/
def docApplyJoin (joinData : Option (List DVal)) (data : List DVal)
    (mainField joinField : String) : List DVal :=
  match joinData with
  | none => data
  | some [] => data
  | some jd =>
    let idx : List (String × List DVal) :=
      jd.foldl (fun gs d =>
        let k := pyStrOfDVal (getNested d joinField)
        if (gs.map Prod.fst).contains k then
          gs.map (fun p => if p.1 = k then (p.1, p.2 ++ [d]) else p)
        else gs ++ [(k, [d])]) []
    data.map (fun doc =>
      let k := pyStrOfDVal (getNested doc mainField)
      let bucket := match idx.find? (fun p => p.1 = k) with
        | some p => p.2
        | none => []
      match doc with
      | DVal.obj fields => DVal.obj (dobjSet fields "joined_data" (DVal.arr bucket))
      | d => d)

/-- `NoSQLExecutor._apply_projection`. -/
def docApplyProjection (data : List DVal) (fields : List String) : List DVal :=
  data.map (fun doc =>
    DVal.obj (fields.foldl (fun acc f =>
      setNestedKeys acc (getNested doc f) (splitDots f)) []))

/-- `NoSQLExecutor._apply_groupby`. -/
def docApplyGroupby (data : List DVal) (field : String) : List DVal :=
  let groups : List (String × Nat) :=
    data.foldl (fun gs d =>
      let k := pyStrOfDVal (getNested d field)
      if (gs.map Prod.fst).contains k then
        gs.map (fun p => if p.1 = k then (p.1, p.2 + 1) else p)
      else gs ++ [(k, 1)]) []
  groups.map (fun p =>
    DVal.obj [(field, DVal.str p.1), ("count", DVal.num (pyNat p.2))])

/-- `NoSQLExecutor.execute`: fold the document descriptors in order. -/
def docExecute (joinData : Option (List DVal)) (ops : List DocOp)
    (data : List DVal) : List DVal :=
  match ops with
  | [] => data
  | op :: rest =>
    let r := match op with
      | DocOp.filter f fop v => data.filter (fun d => docFilterMatch d f fop v)
      | DocOp.join mf jf => docApplyJoin joinData data mf jf
      | DocOp.project fs => docApplyProjection data fs
      | DocOp.groupby f => docApplyGroupby data f
      | DocOp.limit n => data.take n
    docExecute joinData rest r

/-! ### The delimited-text line parsers -/

/-- `CSVParser._parse_line` of `csv_parser.py` (doubled-quote convention):
a left-to-right scan toggling `in_quotes`, with `""` inside quotes read as
one literal quote; the line is stripped first and every field stripped on
close.  An unterminated quote simply leaves the final field to close at end
of line. -/
def parseLineDqScan (delim quote : Char) :
    Nat → List Char → List Char → List String → Bool → List String
  | _, [], cur, vals, _ => vals ++ [String.mk (trimChars cur)]
  | 0, _ :: _, cur, vals, _ => vals ++ [String.mk (trimChars cur)]
  | fuel + 1, c :: rest, cur, vals, inQ =>
    if c = quote then
      match rest with
      | c2 :: rest2 =>
        if inQ ∧ c2 = quote then
          parseLineDqScan delim quote fuel rest2 (cur ++ [quote]) vals inQ
        else parseLineDqScan delim quote fuel (c2 :: rest2) cur vals (!inQ)
      | [] => parseLineDqScan delim quote fuel [] cur vals (!inQ)
    else if c = delim ∧ ¬ inQ then
      parseLineDqScan delim quote fuel rest []
        (vals ++ [String.mk (trimChars cur)]) false
    else parseLineDqScan delim quote fuel rest (cur ++ [c]) vals inQ

def parseLineDq (delim quote : Char) (line : String) : List String :=
  parseLineDqScan delim quote (trimChars line.data).length
    (trimChars line.data) [] [] false

/-- `CSVParser.parse_line` of `sql_component/parsers/csv_parser.py`
(escape-character convention): an escape char makes the next char literal;
a quote char always toggles `in_quotes` and is never emitted. -/
def parseLineEscScan (delim quote esc : Char) (cs : List Char) (cur : List Char)
    (vals : List String) (inQ escNext : Bool) : List String :=
  match cs with
  | [] => vals ++ [String.mk (trimChars cur)]
  | c :: rest =>
    if escNext then parseLineEscScan delim quote esc rest (cur ++ [c]) vals inQ false
    else if c = esc then parseLineEscScan delim quote esc rest cur vals inQ true
    else if c = quote then parseLineEscScan delim quote esc rest cur vals (!inQ) false
    else if c = delim ∧ ¬ inQ then
      parseLineEscScan delim quote esc rest []
        (vals ++ [String.mk (trimChars cur)]) false false
    else parseLineEscScan delim quote esc rest (cur ++ [c]) vals inQ false

def parseLineEsc (delim quote esc : Char) (line : String) : List String :=
  parseLineEscScan delim quote esc line.data [] [] false false

/-! ### The type inferrer (`sql_component/parsers/data_types.py`) -/

/-- The typed result of `infer_type` (value plus kind tag). -/
inductive TypedVal where
  | null
  | bool (b : Bool)
  | int (n : Int)
  | float (q : PyFloat)
  | date (s : String)
  | str (s : String)
deriving DecidableEq

/-- `_try_boolean` (on the already stripped value). -/
def tryBoolean (v : String) : Option Bool :=
  if ["true", "t", "yes", "y", "1"].contains (pyLower v) then some true
  else if ["false", "f", "no", "n", "0"].contains (pyLower v) then some false
  else none

/-- `_try_float`: parse as a float but keep it only when the literal
contains `.` or `e`/`E` ("not an integer disguised as float"). -/
def tryFloat (v : String) : Option PyFloat :=
  match pyFloatOfString v with
  | some q =>
    if v.data.contains '.' ∨ (lowerChars v.data).contains 'e' then some q
    else none
  | none => none

/-- First whitespace-separated token of a part, as `p.split()[0]`;
`IndexError` when the part holds no token. -/
def firstToken (p : String) : Except PyErr String :=
  match ((splitOnChar ' ' p.data).filter (· ≠ [])).map String.mk with
  | [] => Except.error PyErr.indexError
  | t :: _ => Except.ok t

/-- The `[int(p.split()[0]) for p in parts]` comprehension: parts evaluated
left to right; an empty part raises `IndexError` (uncaught), a non-integer
token raises `ValueError` (caught by the surrounding handler, yielding
"not a date"). -/
def datePartNums : List String → Except PyErr (Option (List Int))
  | [] => Except.ok (some [])
  | p :: ps => do
    let t ← firstToken p
    match pyIntOfString t with
    | none => pure none
    | some n => do
      let rest ← datePartNums ps
      pure (rest.map (fun l => n :: l))

/-- `_try_date`: the simplified date-shaped heuristic. -/
def tryDate (v : String) : Except PyErr (Option String) :=
  if v.data.contains '-' ∨ v.data.contains '/' then
    let parts := (splitOnChar '/' (v.data.map (fun c =>
      if c = '-' then '/' else c))).map String.mk
    if parts.length = 3 then do
      match ← datePartNums parts with
      | none => pure none
      | some ns => pure (if ns.any (0 < ·) then some v else none)
    else Except.ok none
  else Except.ok none

/-- `DataTypeInferrer.infer_type`: ordered checks — empty, null markers,
boolean, integer, float, date, string. -/
def inferType (value : String) : Except PyErr TypedVal :=
  if value = "" then Except.ok TypedVal.null
  else
    if ["null", "na", "n/a", "none", ""].contains (pyLower (pyStrip value)) then
      Except.ok TypedVal.null
    else
      match tryBoolean (pyStrip value) with
      | some b => Except.ok (TypedVal.bool b)
      | none =>
        match pyIntOfString (pyStrip value) with
        | some n => Except.ok (TypedVal.int n)
        | none =>
          match tryFloat (pyStrip value) with
          | some q => Except.ok (TypedVal.float q)
          | none => do
            match ← tryDate (pyStrip value) with
            | some s => pure (TypedVal.date s)
            | none => pure (TypedVal.str (pyStrip value))

/-! ### Proof-support definitions -/

/-- Whether the filter comparison raises on a given row. -/
def cmpRaises (col : String) (cop : CmpOp) (value : String) (r : Row) : Bool :=
  match pyCmp (coerceNum (r.get col)) cop (coerceNum (RVal.vStr value)) with
  | Except.error _ => true
  | Except.ok _ => false

/-- The value of the filter comparison on a row when it does not raise. -/
def cmpHolds (col : String) (cop : CmpOp) (value : String) (r : Row) : Bool :=
  match pyCmp (coerceNum (r.get col)) cop (coerceNum (RVal.vStr value)) with
  | Except.error _ => false
  | Except.ok b => b

/-- Both executors fold their descriptor list left to right. -/
theorem executeNormal_append (jd : Option (List Row)) (xs ys : List Op)
    (data : List Row) :
    executeNormal jd (xs ++ ys) data =
      (executeNormal jd xs data).bind (executeNormal jd ys) := by
  induction xs generalizing data with
  | nil => rfl
  | cons op rest ih =>
    simp only [List.cons_append, executeNormal]
    cases applyOp jd data op with
    | error e => rfl
    | ok r => simpa using ih r

theorem docExecute_append (jd : Option (List DVal)) (xs ys : List DocOp)
    (data : List DVal) :
    docExecute jd (xs ++ ys) data = docExecute jd ys (docExecute jd xs data) := by
  induction xs generalizing data with
  | nil => simp [docExecute]
  | cons op rest ih => simp only [List.cons_append, docExecute]; exact ih _

/-- C7.
For every result sequence and every limit descriptor with count `n`,
executing the limit stage truncates to the first `min(n, m)` rows of the
prior result, preserving their order, in both the tabular and the document
pipeline: appending a limit descriptor maps the prior pipeline output
through `List.take n`, and `List.take n` yields exactly the first
`min n m` rows (a prefix of the prior sequence). -/
theorem limit_truncates_to_min_prefix :
    (∀ (jd : Option (List Row)) (ops : List Op) (n : Nat) (data : List Row),
      executeNormal jd (ops ++ [Op.limit n]) data =
        (executeNormal jd ops data).map (fun res => res.take n))
    ∧ (∀ (jd : Option (List DVal)) (ops : List DocOp) (n : Nat) (docs : List DVal),
      docExecute jd (ops ++ [DocOp.limit n]) docs = (docExecute jd ops docs).take n)
    ∧ (∀ (res : List Row) (n : Nat),
      (res.take n).length = Nat.min n res.length ∧ res.take n <+: res) := by
  refine ⟨fun jd ops n data => ?_, fun jd ops n docs => ?_, fun res n => ?_⟩
  · rw [executeNormal_append]
    cases executeNormal jd ops data with
    | error e => rfl
    | ok r => rfl
  · rw [docExecute_append]; rfl
  · exact ⟨by simp, List.take_prefix _ _⟩

/-- C8.
When the declared operation sequence contains a join descriptor, the
chunked execution strategy materialises the streamed source completely
(the concatenation of all its chunks) and runs the ordinary in-memory
path on it, so it produces exactly the in-memory result on the same data. -/
theorem chunked_join_forces_materialization (jd : Option (List Row))
    (chunks : List (List Row)) (ops : List Op)
    (hjoin : ops.any (fun op => match op with
      | Op.join _ _ _ => true | _ => false) = true) :
    executeChunked jd chunks ops = executeNormal jd ops chunks.flatten := by
  simp only [executeChunked, hjoin, if_true]

theorem chunked_join_forces_materialization_witness :
    ([Op.join JoinType.inner "a" "b", Op.limit 1].any (fun op => match op with
      | Op.join _ _ _ => true | _ => false) = true)
    ∧ executeChunked (some [[("b", RVal.vStr "1")]])
        [[[("a", RVal.vStr "1")]], [[("a", RVal.vStr "2")]]]
        [Op.join JoinType.inner "a" "b", Op.limit 1] =
      executeNormal (some [[("b", RVal.vStr "1")]])
        [Op.join JoinType.inner "a" "b", Op.limit 1]
        [[[("a", RVal.vStr "1")]], [[("a", RVal.vStr "2")]]].flatten :=
  ⟨by decide, chunked_join_forces_materialization _ _ _ (by decide)⟩

/-- C10.
With no loaded secondary collection (or an empty one — both are falsy in
the `if not self.join_data` guard), the document join returns its input
sequence completely unchanged: no `joined_data` field is attached and no
document is added, removed or modified. -/
theorem doc_join_without_collection_is_identity (jd : Option (List DVal))
    (data : List DVal) (mainField joinField : String)
    (h : jd = none ∨ jd = some []) :
    docApplyJoin jd data mainField joinField = data := by
  rcases h with h | h <;> subst h <;> rfl

theorem doc_join_without_collection_is_identity_witness :
    ((none : Option (List DVal)) = none ∨ (none : Option (List DVal)) = some [])
    ∧ docApplyJoin none [DVal.obj [("a", DVal.num (pyNat 1))], DVal.str "x"] "a" "b" =
        [DVal.obj [("a", DVal.num (pyNat 1))], DVal.str "x"] :=
  ⟨Or.inl rfl,
    doc_join_without_collection_is_identity none _ "a" "b" (Or.inl rfl)⟩

/-- Every run of the doubled-quote scanner emits the pending field at end
of line, so its result is never empty. -/
theorem parseLineDqScan_ne_nil (delim quote : Char) (fuel : Nat) :
    ∀ (cs cur : List Char) (vals : List String) (inQ : Bool),
      parseLineDqScan delim quote fuel cs cur vals inQ ≠ [] := by
  induction fuel with
  | zero => intro cs cur vals inQ; cases cs <;> simp [parseLineDqScan]
  | succ f ih =>
    intro cs cur vals inQ
    cases cs with
    | nil => simp [parseLineDqScan]
    | cons c rest =>
      simp only [parseLineDqScan]
      split
      all_goals (try split)
      all_goals (try split)
      all_goals first | exact ih _ _ _ _ | simp

/-- Every run of the escape-character scanner emits the pending field at
end of line, so its result is never empty. -/
theorem parseLineEscScan_ne_nil (delim quote esc : Char) (cs : List Char)
    (cur : List Char) (vals : List String) (inQ escNext : Bool) :
    parseLineEscScan delim quote esc cs cur vals inQ escNext ≠ [] := by
  induction cs generalizing cur vals inQ escNext with
  | nil => rw [parseLineEscScan]; simp
  | cons c rest ih =>
    rw [parseLineEscScan]
    split
    · exact ih _ _ _ _
    · split
      · exact ih _ _ _ _
      · split
        · exact ih _ _ _ _
        · split
          · exact ih _ _ _ _
          · exact ih _ _ _ _

/-- C9.
Both delimited-text line parsers are total Lean functions (so parsing
terminates without raising on every input line), and an unterminated quote
is not an error: the open field closes at end of line and whatever content
accumulated is returned as the final field — in particular the malformed
line `"a,b` parses to the single field `a,b` in both the doubled-quote and
the escape-character variant, and every parse emits at least the final
field. -/
theorem parse_line_closes_open_field_at_eol :
    parseLineDq ',' '"' "\"a,b" = ["a,b"]
    ∧ parseLineEsc ',' '"' '\\' "\"a,b" = ["a,b"]
    ∧ (∀ (d q : Char) (line : String), parseLineDq d q line ≠ [])
    ∧ (∀ (d q e : Char) (line : String), parseLineEsc d q e line ≠ []) := by
  refine ⟨by decide, by decide, fun d q line => ?_, fun d q e line => ?_⟩
  · exact parseLineDqScan_ne_nil d q (trimChars line.data).length
      (trimChars line.data) [] [] false
  · exact parseLineEscScan_ne_nil d q e line.data [] [] false false

/-- A comparison only ever raises `TypeError`. -/
theorem pyCmp_error_eq {a b : RVal} {cop : CmpOp} {e : PyErr}
    (h : pyCmp a cop b = Except.error e) : e = PyErr.typeError := by
  unfold pyCmp at h
  split at h <;> simp_all <;> split at h <;> simp_all

/-- C3 (amended).
Closed form of the WHERE filter: both sides attempt numeric coercion; a
side that fails keeps its original value.  If the resulting comparison is
defined (two numbers, two strings as lexicographic comparison, or an
equality operator) the row is kept exactly when it holds; if any row's
comparison is undefined (one side numeric and the other not, or a null
being ordered) the whole filter aborts with `TypeError` — the offending
row is not merely excluded. -/
theorem filter_closed_form (data : List Row) (col : String) (cop : CmpOp)
    (value : String) :
    applyFilter data col cop value =
      if data.any (cmpRaises col cop value) then Except.error PyErr.typeError
      else Except.ok (data.filter (cmpHolds col cop value)) := by
  unfold applyFilter
  induction data with
  | nil => simp [filterRows]
  | cons r rs ih =>
    simp only [filterRows, List.any_cons, List.filter_cons]
    cases h : pyCmp (coerceNum (r.get col)) cop (coerceNum (RVal.vStr value)) with
    | error e =>
      have he := pyCmp_error_eq h
      subst he
      have hr : cmpRaises col cop value r = true := by
        simp [cmpRaises, h]
      simp only [hr, Bool.true_or, if_true]
      rfl
    | ok b =>
      have hr : cmpRaises col cop value r = false := by
        simp [cmpRaises, h]
      have hh : cmpHolds col cop value r = b := by
        simp [cmpHolds, h]
      rw [ih]
      by_cases hany : rs.any (cmpRaises col cop value) = true
      · simp only [hr, hany, Bool.false_or, if_true]
        rfl
      · simp only [Bool.not_eq_true] at hany
        simp only [hr, hany, Bool.false_or, if_false, Bool.or_self]
        cases b <;> simp only [hh] <;> rfl

/-- C3, refutation of the claim as stated: on the row `{x: "abc"}` the
filter `x > 1` coerces the right side to a number while the left side
stays a string, and the whole filter invocation errors instead of
excluding the row and continuing; and on the row `{x: "b"}` the filter
`x > "a"` (both coercions failing) keeps the row by string comparison
instead of excluding it. -/
theorem filter_coercion_failure_refuted :
    applyFilter [[("x", RVal.vStr "abc")]] "x" CmpOp.gt "1" =
      Except.error PyErr.typeError
    ∧ applyFilter [[("x", RVal.vStr "b")]] "x" CmpOp.gt "a" =
      Except.ok [[("x", RVal.vStr "b")]] :=
  ⟨by decide, by decide⟩

/-- C4 (amended).
A COUNT aggregate reports the total number of member rows of each group,
null-valued members included (the aggregated column is not consulted at
all); and when SUM or AVG finds no member value that coerces to a number,
the aggregate field is simply absent from the group's result row, so
looking it up yields null — never zero. -/
theorem groupby_count_total_and_empty_agg_absent (data : List Row)
    (col aggCol : String) :
    (applyGroupby data col (some (AggFn.count, aggCol)) =
      (buildGroups data col).map (fun p =>
        [(col, RVal.vStr p.1), ("count", RVal.vNum (pyNat p.2.length))]))
    ∧ (∀ fn, (fn = AggFn.sum ∨ fn = AggFn.avg) → col ≠ havingField fn →
        ∀ p ∈ buildGroups data col, aggValues p.2 aggCol = [] →
          aggRow col fn aggCol p.1 p.2 = [(col, RVal.vStr p.1)]
          ∧ (aggRow col fn aggCol p.1 p.2).getD (havingField fn) RVal.vNone =
              RVal.vNone) := by
  constructor
  · simp only [applyGroupby]
    apply List.map_congr_left
    intro p hp
    simp [aggRow]
  · rintro fn (rfl | rfl) hcol p hp hvals <;>
      (refine ⟨by simp [aggRow, hvals], ?_⟩) <;>
      simp only [aggRow, hvals, Row.getD, List.find?, havingField] <;>
      simp only [havingField] at hcol <;>
      simp [hcol]

theorem groupby_count_total_and_empty_agg_absent_witness :
    ((AggFn.sum = AggFn.sum ∨ AggFn.sum = AggFn.avg)
      ∧ "g" ≠ havingField AggFn.sum
      ∧ ("A", [[("g", RVal.vStr "A"), ("v", RVal.vStr "x")]]) ∈
          buildGroups [[("g", RVal.vStr "A"), ("v", RVal.vStr "x")]] "g"
      ∧ aggValues [[("g", RVal.vStr "A"), ("v", RVal.vStr "x")]] "v" = [])
    ∧ aggRow "g" AggFn.sum "v" "A" [[("g", RVal.vStr "A"), ("v", RVal.vStr "x")]] =
        [("g", RVal.vStr "A")] := by
  refine ⟨⟨Or.inl rfl, by decide, by decide, by decide⟩, ?_⟩
  exact ((groupby_count_total_and_empty_agg_absent
    [[("g", RVal.vStr "A"), ("v", RVal.vStr "x")]] "g" "v").2 AggFn.sum
    (Or.inl rfl) (by decide)
    ("A", [[("g", RVal.vStr "A"), ("v", RVal.vStr "x")]])
    (by decide) (by decide)).1

/-- C4, refutation of the claim as stated: a single-member group whose
aggregated column holds null still reports `count = 1`, while the number
of member rows with a non-null aggregated value is `0`. -/
theorem groupby_count_nonnull_refuted :
    applyGroupby [[("g", RVal.vStr "A"), ("v", RVal.vNone)]] "g"
        (some (AggFn.count, "v")) =
      [[("g", RVal.vStr "A"), ("count", RVal.vNum (pyNat 1))]]
    ∧ (([[("g", RVal.vStr "A"), ("v", RVal.vNone)]] : List Row).filter
        (fun r => !(r.get "v" == RVal.vNone))).length = 0 :=
  ⟨by decide, by decide⟩

/-- Writing one key into a dict keeps the key list when the key is already
present, else appends it. -/
theorem dictSet_keys (r : Row) (k : String) (v : RVal) :
    (dictSet r k v).map Prod.fst =
      if (r.map Prod.fst).contains k then r.map Prod.fst
      else r.map Prod.fst ++ [k] := by
  unfold dictSet
  split
  · next h =>
    simp only [h, if_true, List.map_map]
    apply List.map_congr_left
    intro p _
    by_cases hp : p.1 = k <;> simp [hp]
  · next h => simp [h]

/-- The key list of a Python dict merge `{**a, **b}` (for a dict `b`, whose
keys are distinct): `a`'s keys in order, then `b`'s new keys in order. -/
theorem dictMerge_keys (b a : Row) (hb : (b.map Prod.fst).Nodup) :
    (dictMerge a b).map Prod.fst =
      a.map Prod.fst ++
        (b.map Prod.fst).filter (fun k => !((a.map Prod.fst).contains k)) := by
  induction b generalizing a with
  | nil => simp [dictMerge]
  | cons p b' ih =>
    have hmerge : dictMerge a (p :: b') = dictMerge (dictSet a p.1 p.2) b' := rfl
    simp only [List.map_cons, List.nodup_cons] at hb
    rw [hmerge, ih _ hb.2, dictSet_keys]
    by_cases hk : p.1 ∈ a.map Prod.fst
    · rw [if_pos (by simpa using hk)]
      simp [List.filter_cons, hk]
    · rw [if_neg (by simpa using hk)]
      have hpred : ∀ k ∈ b'.map Prod.fst,
          (!((a.map Prod.fst ++ [p.1]).contains k)) =
            (!((a.map Prod.fst).contains k)) := by
        intro k hkmem
        have hne : k ≠ p.1 := fun he => hb.1 (he ▸ hkmem)
        simp [hne]
      rw [List.filter_congr hpred]
      simp [List.filter_cons, hk, List.append_assoc]

/-- Every row stored in a bucket list extended by `addToRValBuckets`
satisfies any property satisfied by the prior bucket rows and the new
row. -/
theorem addToRValBuckets_mem {P : Row → Prop} {gs : List (RVal × List Row)}
    {k : RVal} {r : Row} (hgs : ∀ p ∈ gs, ∀ x ∈ p.2, P x) (hr : P r) :
    ∀ p ∈ addToRValBuckets gs k r, ∀ x ∈ p.2, P x := by
  unfold addToRValBuckets
  split
  · intro p hp x hx
    rw [List.mem_map] at hp
    obtain ⟨p0, hp0, rfl⟩ := hp
    by_cases hkey : rvalPyEq p0.1 k = true
    · simp only [hkey, if_true] at hx
      rcases List.mem_append.mp hx with hx | hx
      · exact hgs p0 hp0 x hx
      · simp only [List.mem_singleton] at hx
        exact hx ▸ hr
    · simp only [hkey, if_false] at hx
      exact hgs p0 hp0 x hx
  · intro p hp x hx
    rcases List.mem_append.mp hp with hp | hp
    · exact hgs p hp x hx
    · simp only [List.mem_singleton] at hp
      subst hp
      simp only [List.mem_singleton] at hx
      exact hx ▸ hr

/-- Every row in a join-index bucket comes from the indexed table. -/
theorem buildJoinIndex_mem (jd : List Row) (jk : String) :
    ∀ p ∈ buildJoinIndex jd jk, ∀ x ∈ p.2, x ∈ jd := by
  have general : ∀ (rows : List Row) (gs : List (RVal × List Row)),
      (∀ p ∈ gs, ∀ x ∈ p.2, x ∈ jd) → (∀ r ∈ rows, r ∈ jd) →
      ∀ p ∈ rows.foldl (fun gs r => addToRValBuckets gs (r.get jk) r) gs,
        ∀ x ∈ p.2, x ∈ jd := by
    intro rows
    induction rows with
    | nil =>
      intro gs hgs _ p hp
      exact hgs p hp
    | cons r rs ih =>
      intro gs hgs hrows p hp
      exact ih _ (addToRValBuckets_mem hgs (hrows r (List.mem_cons_self r rs)))
        (fun x hx => hrows x (List.mem_cons_of_mem r hx)) p hp
  exact general jd [] (by simp) (fun r hr => hr)

/-- The combined-row shape of a matched join pair: left columns, then the
right columns not already present on the left. -/
def mergedShape (data jd : List Row) (r : Row) : Prop :=
  ∃ l ∈ data, ∃ jr ∈ jd,
    r.map Prod.fst =
      l.map Prod.fst ++
        (jr.map Prod.fst).filter (fun k => !((l.map Prod.fst).contains k))

/-- C2 (amended).
For a non-empty right table whose rows have duplicate-free key lists,
every row emitted for a matched (left row, right row) pair has column
list equal to the left row's columns followed by those right-row columns
whose names do not already occur on the left — the right join-key column
is therefore retained whenever its name differs from every left column
(it is dropped only on a name collision, where the right value overwrites
the left one in place).  Inner joins emit only such combined rows; left
joins additionally pass unmatched left rows through unchanged; right
joins additionally pass unmatched right-table rows through unchanged. -/
theorem join_combined_row_columns (jd data : List Row) (jt : JoinType)
    (mk jk : String) (hne : jd ≠ [])
    (hkeys : ∀ jr ∈ jd, ((jr.map Prod.fst).Nodup)) :
    ∀ r ∈ applyJoin (some jd) data jt mk jk,
      mergedShape data jd r
      ∨ (jt = JoinType.left ∧ r ∈ data)
      ∨ (jt = JoinType.right ∧ r ∈ jd) := by
  obtain ⟨j0, jrest, rfl⟩ : ∃ j0 jrest, jd = j0 :: jrest := by
    cases jd with
    | nil => exact absurd rfl hne
    | cons j0 jrest => exact ⟨j0, jrest, rfl⟩
  intro r hr
  cases jt with
  | inner =>
    simp only [applyJoin] at hr
    rw [List.mem_flatMap] at hr
    obtain ⟨l, hl, hr⟩ := hr
    cases hfind : (buildJoinIndex (j0 :: jrest) jk).find?
        (fun p => rvalPyEq p.1 (l.get mk)) with
    | none => rw [hfind] at hr; simp at hr
    | some p =>
      rw [hfind] at hr
      rw [List.mem_map] at hr
      obtain ⟨jr, hjr, rfl⟩ := hr
      have hmem : jr ∈ j0 :: jrest :=
        buildJoinIndex_mem _ jk p (List.mem_of_find?_eq_some hfind) jr hjr
      exact Or.inl ⟨l, hl, jr, hmem, dictMerge_keys jr l (hkeys jr hmem)⟩
  | left =>
    simp only [applyJoin] at hr
    rw [List.mem_flatMap] at hr
    obtain ⟨l, hl, hr⟩ := hr
    cases hfind : (buildJoinIndex (j0 :: jrest) jk).find?
        (fun p => rvalPyEq p.1 (l.get mk)) with
    | none =>
      rw [hfind] at hr
      simp only [List.mem_singleton] at hr
      exact Or.inr (Or.inl ⟨rfl, hr ▸ hl⟩)
    | some p =>
      rw [hfind] at hr
      rw [List.mem_map] at hr
      obtain ⟨jr, hjr, rfl⟩ := hr
      have hmem : jr ∈ j0 :: jrest :=
        buildJoinIndex_mem _ jk p (List.mem_of_find?_eq_some hfind) jr hjr
      exact Or.inl ⟨l, hl, jr, hmem, dictMerge_keys jr l (hkeys jr hmem)⟩
  | right =>
    simp only [applyJoin] at hr
    rw [List.mem_flatMap] at hr
    obtain ⟨p, hp, hr⟩ := hr
    have hbucket : ∀ x ∈ p.2, x ∈ j0 :: jrest := buildJoinIndex_mem _ jk p hp
    by_cases hhits : data.filter (fun l => rvalPyEq (l.get mk) p.1) = []
    · rw [if_pos hhits] at hr
      exact Or.inr (Or.inr ⟨rfl, hbucket r hr⟩)
    · rw [if_neg hhits] at hr
      rw [List.mem_flatMap] at hr
      obtain ⟨l, hl, hr⟩ := hr
      rw [List.mem_map] at hr
      obtain ⟨jr, hjr, rfl⟩ := hr
      have hmem := hbucket jr hjr
      exact Or.inl ⟨l, List.mem_of_mem_filter hl, jr, hmem,
        dictMerge_keys jr l (hkeys jr hmem)⟩

theorem join_combined_row_columns_witness :
    (([[("b", RVal.vStr "1"), ("c", RVal.vStr "2")]] : List Row) ≠ []
      ∧ ∀ jr ∈ ([[("b", RVal.vStr "1"), ("c", RVal.vStr "2")]] : List Row),
        ((jr.map Prod.fst).Nodup))
    ∧ ∀ r ∈ applyJoin (some [[("b", RVal.vStr "1"), ("c", RVal.vStr "2")]])
        [[("a", RVal.vStr "1")]] JoinType.inner "a" "b",
      mergedShape [[("a", RVal.vStr "1")]]
          [[("b", RVal.vStr "1"), ("c", RVal.vStr "2")]] r
      ∨ (JoinType.inner = JoinType.left ∧ r ∈ [[("a", RVal.vStr "1")]])
      ∨ (JoinType.inner = JoinType.right ∧
          r ∈ [[("b", RVal.vStr "1"), ("c", RVal.vStr "2")]]) :=
  ⟨⟨by decide, by decide⟩,
    join_combined_row_columns _ _ JoinType.inner "a" "b" (by decide) (by decide)⟩

/-- C2, refutation of the claim as stated: joining `{a: 1}` with right
table `{b: 1, c: 2}` on `a = b` emits the combined row with column list
`[a, b, c]` — the right join-key column `b` is present, not dropped. -/
theorem join_right_key_dropped_refuted :
    (applyJoin (some [[("b", RVal.vStr "1"), ("c", RVal.vStr "2")]])
        [[("a", RVal.vStr "1")]] JoinType.inner "a" "b").map
      (fun r => r.map Prod.fst) = [["a", "b", "c"]]
    ∧ "b" ∈ (["a", "b", "c"] : List String)
    ∧ (["a", "b", "c"] : List String) ≠ ["a", "c"] :=
  ⟨by decide, by decide, by decide⟩

/-- The ordered dispatch of `infer_type`: exactly one of the checks fires,
and each later check presupposes the failure of all earlier ones. -/
theorem inferType_run (v : String) :
    inferType v = Except.ok TypedVal.null
    ∨ (∃ b, tryBoolean (pyStrip v) = some b
        ∧ inferType v = Except.ok (TypedVal.bool b))
    ∨ (tryBoolean (pyStrip v) = none
        ∧ ∃ n, pyIntOfString (pyStrip v) = some n
        ∧ inferType v = Except.ok (TypedVal.int n))
    ∨ (tryBoolean (pyStrip v) = none ∧ pyIntOfString (pyStrip v) = none
        ∧ ∃ q, tryFloat (pyStrip v) = some q
        ∧ inferType v = Except.ok (TypedVal.float q))
    ∨ (tryBoolean (pyStrip v) = none ∧ pyIntOfString (pyStrip v) = none
        ∧ tryFloat (pyStrip v) = none
        ∧ ((∃ e, inferType v = Except.error e)
          ∨ (∃ s, inferType v = Except.ok (TypedVal.date s))
          ∨ (∃ s, inferType v = Except.ok (TypedVal.str s)))) := by
  unfold inferType
  split
  · exact Or.inl rfl
  · split
    · exact Or.inl rfl
    · cases hb : tryBoolean (pyStrip v) with
      | some b => exact Or.inr (Or.inl ⟨b, rfl, rfl⟩)
      | none =>
        cases hi : pyIntOfString (pyStrip v) with
        | some n => exact Or.inr (Or.inr (Or.inl ⟨rfl, n, rfl, rfl⟩))
        | none =>
          cases hf : tryFloat (pyStrip v) with
          | some q => exact Or.inr (Or.inr (Or.inr (Or.inl ⟨rfl, rfl, q, rfl, rfl⟩)))
          | none =>
            refine Or.inr (Or.inr (Or.inr (Or.inr ⟨rfl, rfl, rfl, ?_⟩)))
            cases hd : tryDate (pyStrip v) with
            | error e => exact Or.inl ⟨e, by rfl⟩
            | ok o =>
              cases o with
              | some s => exact Or.inr (Or.inl ⟨s, by rfl⟩)
              | none => exact Or.inr (Or.inr ⟨pyStrip v, by rfl⟩)

/-- C5.
The boolean check runs before both numeric checks in `infer_type`'s
ordered dispatch: whenever the result kind is integer or float, the
stripped token was rejected by the boolean check; and the literal tokens
`"1"` and `"0"` always classify as boolean true and boolean false, never
as integer. -/
theorem infer_type_boolean_before_numeric :
    (∀ (v : String) (n : Int), inferType v = Except.ok (TypedVal.int n) →
      tryBoolean (pyStrip v) = none)
    ∧ (∀ (v : String) (q : PyFloat), inferType v = Except.ok (TypedVal.float q) →
      tryBoolean (pyStrip v) = none)
    ∧ inferType "1" = Except.ok (TypedVal.bool true)
    ∧ inferType "0" = Except.ok (TypedVal.bool false) := by
  refine ⟨fun v n h => ?_, fun v q h => ?_, by decide, by decide⟩ <;>
  · rcases inferType_run v with he | ⟨b, _, he⟩ | ⟨hb, _, _, he⟩ |
        ⟨hb, _, _, _, he⟩ | ⟨hb, _, _, he | he | he⟩ <;>
      first
        | exact hb
        | (obtain ⟨x, he⟩ := he; rw [h] at he; simp at he)
        | (rw [h] at he; simp at he)

/-- C6.
`infer_type` yields kind float only when the stripped token parses as a
float literal and contains `.` or `e`/`E` (checked on the lowercased
token); a token accepted by the integer parser is never classified float
(the integer check runs first); and concretely `"123.0"` is float while
`"123"` is integer. -/
theorem infer_type_float_requires_marker :
    (∀ (v : String) (q : PyFloat), inferType v = Except.ok (TypedVal.float q) →
      (pyFloatOfString (pyStrip v)).isSome
      ∧ ((pyStrip v).data.contains '.' ∨ (lowerChars (pyStrip v).data).contains 'e'))
    ∧ (∀ v : String, (pyIntOfString (pyStrip v)).isSome →
      ∀ q : PyFloat, inferType v ≠ Except.ok (TypedVal.float q))
    ∧ inferType "123.0" = Except.ok (TypedVal.float (pyDivPow10 (pyNat 1230) 1))
    ∧ inferType "123" = Except.ok (TypedVal.int 123) := by
  refine ⟨fun v q h => ?_, fun v hint q h => ?_, by decide, by decide⟩
  · rcases inferType_run v with he | ⟨b, _, he⟩ | ⟨_, n, _, he⟩ |
        ⟨_, _, q2, hf, he⟩ | ⟨_, _, _, he | he | he⟩
    · rw [h] at he; simp at he
    · rw [h] at he; simp at he
    · rw [h] at he; simp at he
    · unfold tryFloat at hf
      cases hpf : pyFloatOfString (pyStrip v) with
      | none => rw [hpf] at hf; simp at hf
      | some q3 =>
        rw [hpf] at hf
        refine ⟨by simp [hpf], ?_⟩
        by_cases hmark : (pyStrip v).data.contains '.' = true
            ∨ (lowerChars (pyStrip v).data).contains 'e' = true
        · exact hmark
        · exfalso
          change (if (pyStrip v).data.contains '.' = true
              ∨ (lowerChars (pyStrip v).data).contains 'e' = true
            then some q3 else none) = some q2 at hf
          rw [if_neg hmark] at hf
          exact Option.noConfusion hf
    · obtain ⟨e, he⟩ := he; rw [h] at he; simp at he
    · obtain ⟨s, he⟩ := he; rw [h] at he; simp at he
    · obtain ⟨s, he⟩ := he; rw [h] at he; simp at he
  · rcases inferType_run v with he | ⟨b, _, he⟩ | ⟨_, n, _, he⟩ |
        ⟨_, hi, _, _, _⟩ | ⟨_, hi, _, _⟩
    · rw [h] at he; simp at he
    · rw [h] at he; simp at he
    · rw [h] at he; simp at he
    · rw [hi] at hint; simp at hint
    · rw [hi] at hint; simp at hint

theorem infer_type_boolean_before_numeric_witness :
    inferType "5" = Except.ok (TypedVal.int 5)
    ∧ tryBoolean (pyStrip "5") = none :=
  ⟨by decide, infer_type_boolean_before_numeric.1 "5" 5 (by decide)⟩

/-! ### Totality and transitivity of the sort comparator -/

theorem infer_type_float_requires_marker_witness :
    inferType "2.5" = Except.ok (TypedVal.float (pyDivPow10 (pyNat 25) 1))
    ∧ ((pyFloatOfString (pyStrip "2.5")).isSome
      ∧ ((pyStrip "2.5").data.contains '.'
        ∨ (lowerChars (pyStrip "2.5").data).contains 'e'))
    ∧ (pyIntOfString (pyStrip "7")).isSome
    ∧ inferType "7" ≠ Except.ok (TypedVal.float (pyNat 7)) :=
  ⟨by decide,
   infer_type_float_requires_marker.1 "2.5" (pyDivPow10 (pyNat 25) 1) (by decide),
   by decide,
   infer_type_float_requires_marker.2.1 "7" (by decide) (pyNat 7)⟩

end SqlEngine
